import Mathlib

/-!
Verification of the icecream-qr repository: credential issuance
(`generate_qr_and_email.py`) and the live verification engine
(`verify_qr2.py` / `verify_qr_app.py`), embedded shallowly.

Strings are modelled as lists of characters so that the Python string
operations (`split`, `strip`, concatenation, f-strings) become ordinary
list functions.
-/

/-- Python strings, modelled as lists of characters. -/
abbrev Str := List Char

/-! ## Payload serialization (TokenCodec payload layer)

`make_token` builds the payload `f"{roll_no}|{nonce}"`; the verifier
splits it back with `payload.split("|")` followed by
`roll_no = roll_no.strip()`. -/

/-- The payload `f"{roll_no}|{nonce}"` built by `make_token` (generate_qr_and_email.py:73). -/
def mkPayload (roll nonce : Str) : Str :=
  roll ++ '|' :: nonce

/-- Python `s.split(sep)` for a one-character separator: splits at every
occurrence of the separator, keeping empty pieces. -/
def splitSep (sep : Char) : Str → List Str
  | [] => [[]]
  | c :: cs =>
    if c = sep then [] :: splitSep sep cs
    else
      match splitSep sep cs with
      | [] => [[c]]
      | h :: t => (c :: h) :: t

/-- Python `s.strip()`: remove leading and trailing whitespace. -/
def pyStrip (s : Str) : Str :=
  ((s.dropWhile Char.isWhitespace).reverse.dropWhile Char.isWhitespace).reverse

/-- The verifier's payload parse (verify_qr2.py:183-184):
`roll_no, nonce = payload.split("|")` (fails unless the split yields
exactly two pieces, caught by the surrounding `except`), then
`roll_no = roll_no.strip()`. -/
def parsePayload (payload : Str) : Option (Str × Str) :=
  match splitSep '|' payload with
  | [a, b] => some (pyStrip a, b)
  | _ => none

/-! ## Authenticated encryption and transport encoding

The QR text is `base64.urlsafe_b64encode(fernet.encrypt(payload))`
(generate_qr_and_email.py:74,78) and the verifier inverts it with
`fernet.decrypt(base64.urlsafe_b64decode(qr_data))` (verify_qr2.py:181-182).
Both layers are external library calls; we model their composition as an
abstract pair with the library's documented round-trip guarantee, while
the payload layer above stays concrete. -/

/-- The composition of URL-safe base64 with Fernet authenticated
encryption, as used by the repository: `cipher` maps a plaintext payload
to QR text, `decipher` authenticates and inverts it; decryption of an
honestly produced ciphertext succeeds and returns the plaintext. -/
structure TokenCrypto where
  cipher : Str → Str
  decipher : Str → Option Str
  decipher_cipher : ∀ p, decipher (cipher p) = some p

/-- A concrete `TokenCrypto` instance (plaintext transport) used to
evaluate the engine on closed inputs. -/
def plainCrypto : TokenCrypto where
  cipher := id
  decipher := some
  decipher_cipher := fun _ => rfl

/-- Composition of `make_token` with `generate_qr_image_from_token`'s base64 step:
the QR text issued for a roll number and an already-generated nonce. -/
def encodeToken (crypto : TokenCrypto) (roll nonce : Str) : Str :=
  crypto.cipher (mkPayload roll nonce)

/-- The verifier's decode step (verify_qr2.py:180-189): base64-decode,
authenticated decrypt, split on `|`, strip the roll number. `none` is the
`except` branch (Invalid). -/
def decodeToken (crypto : TokenCrypto) (qrData : Str) : Option (Str × Str) :=
  (crypto.decipher qrData).bind parsePayload

/-! ## URL-safe base64 encoding of the nonce bytes

`make_token` draws `os.urandom(6)` and sets
`nonce = base64.urlsafe_b64encode(...)` (generate_qr_and_email.py:72).
We embed the RFC 4648 URL-safe encoder concretely to reason about the
alphabet of the resulting nonce text. -/

/-- The 64-character URL-safe base64 alphabet. -/
def b64Alphabet : Str :=
  "ABCDEFGHIJKLMNOPQRSTUVWXYZabcdefghijklmnopqrstuvwxyz0123456789-_".toList

/-- The alphabet character for a 6-bit value. -/
def b64Char (n : Nat) : Char :=
  b64Alphabet.getD n 'A'

/-- RFC 4648 URL-safe base64 of a byte sequence, with `=` padding —
the behaviour of `base64.urlsafe_b64encode`. -/
def b64UrlsafeEncode : List Nat → Str
  | [] => []
  | [b1] => [b64Char (b1 / 4 % 64), b64Char (b1 % 4 * 16), '=', '=']
  | [b1, b2] => [b64Char (b1 / 4 % 64), b64Char (b1 % 4 * 16 + b2 / 16), b64Char (b2 % 16 * 4), '=']
  | b1 :: b2 :: b3 :: rest =>
    b64Char (b1 / 4 % 64) :: b64Char (b1 % 4 * 16 + b2 / 16) ::
    b64Char (b2 % 16 * 4 + b3 / 64) :: b64Char (b3 % 64) :: b64UrlsafeEncode rest

/-- The nonce generated by `make_token` from the six random bytes. -/
def makeNonce (randomBytes : List Nat) : Str :=
  b64UrlsafeEncode randomBytes

/-! ## AttendanceStore (sqlite tables and helpers)

`init_db` creates `students (roll_no TEXT PRIMARY KEY, name, email,
token_b64, created_at)` and `attendance (id AUTOINCREMENT, roll_no,
timestamp_iso, source, note)`. Tables are modelled as lists of rows in
insertion order. -/

/-- A row of the `students` table. -/
structure Student where
  roll : Str
  name : Str
  email : Str
  tokenB64 : Str
  createdAt : Nat
deriving DecidableEq

/-- A row of the `attendance` table (the autoincrement id is the list
position). -/
structure AttRecord where
  roll : Str
  ts : Nat
  source : Str
  note : Str
deriving DecidableEq

/-- The persistent state owned by the store: both tables. -/
structure Store where
  students : List Student
  attendance : List AttRecord
deriving DecidableEq

/-- The freshly initialised database (`init_db` on a new file: both
tables exist and are empty). -/
def emptyStore : Store := ⟨[], []⟩

/-- Model of `save_student_token_db` (generate_qr_and_email.py:61-69):
`INSERT OR REPLACE INTO students` keyed on the `roll_no` primary key —
any row with the same roll is replaced, the new row is inserted. -/
def saveStudentTokenDb (db : List Student) (roll name email tokenB64 : Str)
    (createdAt : Nat) : List Student :=
  db.filter (fun s => s.roll ≠ roll) ++ [⟨roll, name, email, tokenB64, createdAt⟩]

/-- Model of `get_student_by_roll` (verify_qr2.py:85-91): first row whose
`roll_no` matches. -/
def getStudentByRoll (db : List Student) (roll : Str) : Option Student :=
  db.find? (fun s => s.roll = roll)

/-- Model of `get_student_by_token_b64` (verify_qr2.py:93-99): first row whose
`token_b64` matches the scanned text. -/
def getStudentByTokenB64 (db : List Student) (tokenB64 : Str) : Option Student :=
  db.find? (fun s => s.tokenB64 = tokenB64)

/-- Model of `attendance_exists` (verify_qr2.py:101-107): `SELECT 1 FROM
attendance WHERE roll_no = ? LIMIT 1` is not none. -/
def attendanceExists (db : List AttRecord) (roll : Str) : Bool :=
  db.any (fun r => r.roll = roll)

/-- The sqlite error the retry loop catches (`sqlite3.OperationalError`,
raised when the store is momentarily busy/locked). -/
inductive SqlErr where
  | operationalError
deriving DecidableEq

/-- The `while True` retry loop of `add_attendance`
(verify_qr2.py:109-127): attempt the INSERT; on `OperationalError`
increment `tries` and re-raise once `tries > maxFails` (8 in
verify_qr2.py, 5 in verify_qr_app.py), else sleep 0.1 s and retry.
`avail i` tells whether the i-th attempt succeeds (transient
contention schedule); `tsAt i` is `datetime.utcnow()` read on attempt i.
Returns the timestamp of the successful insert, or the re-raised
underlying error. -/
def addAttendanceLoop (avail : Nat → Bool) (tsAt : Nat → Nat) :
    Nat → Nat → Except SqlErr Nat
  | attempt, failBudget =>
    if avail attempt then Except.ok (tsAt attempt)
    else
      match failBudget with
      | 0 => Except.error SqlErr.operationalError
      | b + 1 => addAttendanceLoop avail tsAt (attempt + 1) b

/-- Model of `add_attendance` of verify_qr2.py: up to 8 tolerated failures
(re-raise on the 9th). -/
def addAttendance (avail : Nat → Bool) (tsAt : Nat → Nat) : Except SqlErr Nat :=
  addAttendanceLoop avail tsAt 0 8

/-! ## VerificationEngine (`QRTransformer.recv`, verify_qr2.py:161-224)

We embed the handling of one decoded symbol string (`qr_data`, after the
utf-8 decode) — the body of the `for d in decoded` loop. -/

/-- The per-process debounce recency cache `self.last_seen`
(a dict: raw string → last-seen time). -/
abbrev SeenCache := List (Str × Nat)

/-- Dict lookup `self.last_seen[qr_data]` / `qr_data in self.last_seen`. -/
def lookupSeen : SeenCache → Str → Option Nat
  | [], _ => none
  | (k, v) :: rest, raw => if k = raw then some v else lookupSeen rest raw

/-- Dict update `self.last_seen[qr_data] = now`: replace in place if the
key is present, append otherwise. -/
def updateSeen (cache : SeenCache) (raw : Str) (now : Nat) : SeenCache :=
  match cache with
  | [] => [(raw, now)]
  | (k, v) :: rest =>
    if k = raw then (k, now) :: rest else (k, v) :: updateSeen rest raw now

/-- Engine-visible state: the debounce cache plus the shared store. -/
structure EngineState where
  lastSeen : SeenCache
  store : Store
deriving DecidableEq

/-- The outcomes the engine emits (toast/print per branch of `recv`).
Suppression emits nothing, modelled as `none` at the call site. -/
inductive Outcome where
  | invalid
  | unknown
  | duplicate (roll : Str)
  | verified (name : Str) (roll : Str) (ts : Nat)
deriving DecidableEq

/-- The source tag `"webrtc_live"` passed by `recv` to
`add_attendance`. -/
def webrtcLive : Str := "webrtc_live".toList

/-- The duplicate-check and record stage of `recv`
(verify_qr2.py:200-208), entered with the student found by lookup and
the decoded (stripped) roll number: if `attendance_exists(roll_no)` emit
Duplicate, else `add_attendance(roll_no, source="webrtc_live")` and emit
Verified — the insert appends one attendance row; an exhausted retry
loop re-raises out of `recv`. -/
def dupRecordStep (avail : Nat → Bool) (tsAt : Nat → Nat) (st : EngineState)
    (roll : Str) (student : Student) : Except SqlErr (Option Outcome) × EngineState :=
  if attendanceExists st.store.attendance roll then
    (Except.ok (some (Outcome.duplicate roll)), st)
  else
    match addAttendance avail tsAt with
    | Except.ok ts =>
      (Except.ok (some (Outcome.verified student.name roll ts)),
       { st with store :=
          { st.store with attendance :=
             st.store.attendance ++ [⟨roll, ts, webrtcLive, []⟩] } })
    | Except.error e => (Except.error e, st)

/-- The lookup stage of `recv` (verify_qr2.py:191-198): find the student
by the decoded roll; if that fails, fall back to matching the raw
scanned text against the stored `token_b64`; if both fail emit Unknown
and stop. -/
def lookupStep (avail : Nat → Bool) (tsAt : Nat → Nat) (st : EngineState)
    (raw roll : Str) : Except SqlErr (Option Outcome) × EngineState :=
  match getStudentByRoll st.store.students roll with
  | some student => dupRecordStep avail tsAt st roll student
  | none =>
    match getStudentByTokenB64 st.store.students raw with
    | some student => dupRecordStep avail tsAt st roll student
    | none => (Except.ok (some Outcome.unknown), st)

/-- The stages of `recv` after the debounce cache has recorded `raw`
(verify_qr2.py:180-208): decode the token (Invalid on failure, no store
access), then look up, then duplicate-check/record. -/
def afterDebounce (crypto : TokenCrypto) (avail : Nat → Bool) (tsAt : Nat → Nat)
    (st : EngineState) (raw : Str) : Except SqlErr (Option Outcome) × EngineState :=
  match decodeToken crypto raw with
  | none => (Except.ok (some Outcome.invalid), st)
  | some (roll, _nonce) => lookupStep avail tsAt st raw roll

/-- Handling of one decoded symbol string by `recv`
(verify_qr2.py:175-208): debounce — if `raw` was seen within the last
3 seconds, `continue` with nothing emitted and nothing touched;
otherwise record `raw → now` in the cache and run decode, lookup,
duplicate-check and record. An `Except.error` result is the
`sqlite3.OperationalError` propagating out of `recv`. -/
def handleScan (crypto : TokenCrypto) (avail : Nat → Bool) (tsAt : Nat → Nat)
    (now : Nat) (st : EngineState) (raw : Str) :
    Except SqlErr (Option Outcome) × EngineState :=
  match lookupSeen st.lastSeen raw with
  | some t =>
    if now - t < 3 then (Except.ok none, st)
    else afterDebounce crypto avail tsAt
      { st with lastSeen := updateSeen st.lastSeen raw now } raw
  | none => afterDebounce crypto avail tsAt
      { st with lastSeen := updateSeen st.lastSeen raw now } raw

/-- Handling of a stream of decoded symbol strings, each with its
arrival time and its store-contention schedule. -/
def handleScans (crypto : TokenCrypto) (avail : Nat → Bool) (tsAt : Nat → Nat) :
    EngineState → List (Str × Nat) → EngineState
  | st, [] => st
  | st, (raw, now) :: rest =>
    handleScans crypto avail tsAt (handleScan crypto avail tsAt now st raw).2 rest

/-! ## Concurrency model for the duplicate-check / record stage

`recv` runs `attendance_exists(roll_no)` and `add_attendance(roll_no)`
on separate sqlite connections (verify_qr2.py:200-208); each statement
is individually atomic, but nothing serializes the pair, and the
`attendance` table has no uniqueness constraint on `roll_no`. Two
concurrent verification calls for the same roll are therefore modelled
as the interleavings of their check and insert steps over the shared
attendance table. -/

/-- Program counter of one verification call at the duplicate-check /
record stage. -/
inductive ThreadPc where
  | check
  | insert
  | doneDuplicate
  | doneVerified (ts : Nat)
deriving DecidableEq

/-- One atomic step of a verification call: the `attendance_exists`
SELECT, or the INSERT of `add_attendance` (which always succeeds — no
contention in this scenario). -/
def threadStep (roll : Str) (ts : Nat) (att : List AttRecord) :
    ThreadPc → List AttRecord × ThreadPc
  | ThreadPc.check =>
    (att, if attendanceExists att roll then ThreadPc.doneDuplicate else ThreadPc.insert)
  | ThreadPc.insert => (att ++ [⟨roll, ts, webrtcLive, []⟩], ThreadPc.doneVerified ts)
  | pc => (att, pc)

/-- Shared attendance table plus the two concurrent calls. -/
structure ConcState where
  att : List AttRecord
  pcA : ThreadPc
  pcB : ThreadPc
deriving DecidableEq

/-- Let thread A (`true`) or thread B (`false`) take its next atomic
step. -/
def concStep (roll : Str) (tsA tsB : Nat) (s : ConcState) (who : Bool) : ConcState :=
  if who then
    let (att, pc) := threadStep roll tsA s.att s.pcA
    { s with att := att, pcA := pc }
  else
    let (att, pc) := threadStep roll tsB s.att s.pcB
    { s with att := att, pcB := pc }

/-- Run a schedule of interleaved steps. -/
def runSchedule (roll : Str) (tsA tsB : Nat) : ConcState → List Bool → ConcState
  | s, [] => s
  | s, who :: rest => runSchedule roll tsA tsB (concStep roll tsA tsB s who) rest

/-- The debounce condition of `recv` (verify_qr2.py:176):
`qr_data in self.last_seen and now - self.last_seen[qr_data] < 3`. -/
def debounceHit (cache : SeenCache) (raw : Str) (now : Nat) : Bool :=
  match lookupSeen cache raw with
  | some t => now - t < 3
  | none => false

/-! ## System operations

Every mutation of the persistent store performed anywhere in the three
source files: `init_db` (CREATE TABLE IF NOT EXISTS — a no-op on an
existing database), `save_student_token_db` during issuance, and the
engine's handling of a scan (whose only write is the attendance INSERT).
No operation deletes or updates attendance rows. -/

/-- One store-touching operation of the system. -/
inductive SysOp where
  | initDb
  | saveStudent (roll name email tokenB64 : Str) (createdAt : Nat)
  | scan (crypto : TokenCrypto) (avail : Nat → Bool) (tsAt : Nat → Nat) (now : Nat) (raw : Str)

/-- Effect of one operation on the engine-visible state. -/
def applySysOp (st : EngineState) : SysOp → EngineState
  | SysOp.initDb => st
  | SysOp.saveStudent roll name email tok t =>
    { st with store := { st.store with
        students := saveStudentTokenDb st.store.students roll name email tok t } }
  | SysOp.scan crypto avail tsAt now raw => (handleScan crypto avail tsAt now st raw).2

/-- Effect of a sequence of operations. -/
def applySysOps : EngineState → List SysOp → EngineState
  | st, [] => st
  | st, op :: ops => applySysOps (applySysOp st op) ops

/-- The state at startup: empty debounce cache over a freshly
initialised database. -/
def initialEngineState : EngineState := ⟨[], emptyStore⟩

/-- Number of `students` rows recorded for a roll number. -/
def countRoll (db : List Student) (roll : Str) : Nat :=
  (db.filter (fun s => s.roll = roll)).length

/-! ## Split / strip lemmas -/

/-- Splitting a string that does not contain the separator yields the
single piece. -/
theorem splitSep_of_not_mem {sep : Char} {l : Str} (h : sep ∉ l) :
    splitSep sep l = [l] := by
  induction l with
  | nil => rfl
  | cons c cs ih =>
    rw [List.mem_cons, not_or] at h
    obtain ⟨h1, h2⟩ := h
    have hc : ¬ c = sep := fun e => h1 e.symm
    simp [splitSep, hc, ih h2]

/-- Splitting past a separator-free prefix peels it off as the first
piece. -/
theorem splitSep_append {sep : Char} {a : Str} (b : Str) (h : sep ∉ a) :
    splitSep sep (a ++ sep :: b) = a :: splitSep sep b := by
  induction a with
  | nil => simp [splitSep]
  | cons c cs ih =>
    rw [List.mem_cons, not_or] at h
    obtain ⟨h1, h2⟩ := h
    have hc : ¬ c = sep := fun e => h1 e.symm
    simp [splitSep, hc, ih h2]

/-- The verifier's parse inverts `make_token`'s payload build whenever
neither field contains the separator, up to the `strip` applied to the
roll number. -/
theorem parsePayload_mkPayload {roll nonce : Str} (h1 : '|' ∉ roll) (h2 : '|' ∉ nonce) :
    parsePayload (mkPayload roll nonce) = some (pyStrip roll, nonce) := by
  unfold parsePayload mkPayload
  rw [splitSep_append nonce h1, splitSep_of_not_mem h2]

/-! ## Base64 alphabet lemmas -/

/-- No 6-bit value maps to the payload separator. -/
theorem b64Char_ne_pipe (n : Nat) : b64Char n ≠ '|' := by
  unfold b64Char
  by_cases h : n < 64
  · exact (by decide : ∀ m, m < 64 → b64Alphabet.getD m 'A' ≠ '|') n h
  · rw [List.getD_eq_default b64Alphabet 'A' (by
      have : b64Alphabet.length = 64 := by decide
      omega)]
    decide

/-- URL-safe base64 text never contains the `|` separator. -/
theorem pipe_not_mem_b64UrlsafeEncode : ∀ bytes : List Nat, '|' ∉ b64UrlsafeEncode bytes
  | [] => by simp [b64UrlsafeEncode]
  | [b1] => by
    simp only [b64UrlsafeEncode, List.mem_cons, List.not_mem_nil, or_false]
    push_neg
    exact ⟨fun e => b64Char_ne_pipe _ e.symm, fun e => b64Char_ne_pipe _ e.symm,
      by decide, by decide⟩
  | [b1, b2] => by
    simp only [b64UrlsafeEncode, List.mem_cons, List.not_mem_nil, or_false]
    push_neg
    exact ⟨fun e => b64Char_ne_pipe _ e.symm, fun e => b64Char_ne_pipe _ e.symm,
      fun e => b64Char_ne_pipe _ e.symm, by decide⟩
  | b1 :: b2 :: b3 :: rest => by
    simp only [b64UrlsafeEncode, List.mem_cons]
    push_neg
    exact ⟨fun e => b64Char_ne_pipe _ e.symm, fun e => b64Char_ne_pipe _ e.symm,
      fun e => b64Char_ne_pipe _ e.symm, fun e => b64Char_ne_pipe _ e.symm,
      pipe_not_mem_b64UrlsafeEncode rest⟩

/-! ## Claim C2: codec round trip -/

/-- C2 counterexample: the round trip is not the identity for every
identifier and nonce — for the identifier `"a|b"` (which contains the
separator) the verifier's two-element split fails and decode returns
none instead of the original pair. -/
theorem decode_encode_fails_on_pipe_roll :
    decodeToken plainCrypto (encodeToken plainCrypto "a|b".toList "n".toList) ≠
      some ("a|b".toList, "n".toList) := by decide

/-- C2 (amended): for every participant identifier that contains no `|`
and is unchanged by `strip`, and every nonce containing no `|`, decoding
the encoded token returns exactly the original pair. -/
theorem decode_encode_roundtrip (crypto : TokenCrypto) (roll nonce : Str)
    (h1 : '|' ∉ roll) (h2 : '|' ∉ nonce) (h3 : pyStrip roll = roll) :
    decodeToken crypto (encodeToken crypto roll nonce) = some (roll, nonce) := by
  unfold decodeToken encodeToken
  rw [crypto.decipher_cipher]
  simp [parsePayload_mkPayload h1 h2, h3]

/-- C2 witness: the round trip at the concrete identifier `"R001"` and
nonce `"n0"`. -/
theorem decode_encode_roundtrip_witness :
    decodeToken plainCrypto (encodeToken plainCrypto "R001".toList "n0".toList) =
      some ("R001".toList, "n0".toList) :=
  decode_encode_roundtrip plainCrypto "R001".toList "n0".toList
    (by decide) (by decide) (by decide)

/-! ## Claim C10: the issued nonce is separator-free, so the split in
decode cannot fail -/

/-- C10: the nonce produced during issuance is URL-safe base64 text and
never contains `|`; hence for every identifier without `|` the decrypted
payload splits into exactly the two original fields and the parse (the
two-element unpacking in `recv`) succeeds. -/
theorem nonce_pipe_free_split_succeeds (randomBytes : List Nat) (roll : Str)
    (h : '|' ∉ roll) :
    '|' ∉ makeNonce randomBytes ∧
    splitSep '|' (mkPayload roll (makeNonce randomBytes)) = [roll, makeNonce randomBytes] ∧
    parsePayload (mkPayload roll (makeNonce randomBytes)) =
      some (pyStrip roll, makeNonce randomBytes) := by
  have hn : '|' ∉ makeNonce randomBytes := pipe_not_mem_b64UrlsafeEncode randomBytes
  refine ⟨hn, ?_, parsePayload_mkPayload h hn⟩
  unfold mkPayload
  rw [splitSep_append _ h, splitSep_of_not_mem hn]

/-- C10 witness: six concrete random bytes and the identifier `"R001"`. -/
theorem nonce_pipe_free_split_succeeds_witness :
    '|' ∉ makeNonce [0, 1, 2, 3, 4, 5] ∧
    splitSep '|' (mkPayload "R001".toList (makeNonce [0, 1, 2, 3, 4, 5])) =
      ["R001".toList, makeNonce [0, 1, 2, 3, 4, 5]] ∧
    parsePayload (mkPayload "R001".toList (makeNonce [0, 1, 2, 3, 4, 5])) =
      some (pyStrip "R001".toList, makeNonce [0, 1, 2, 3, 4, 5]) :=
  nonce_pipe_free_split_succeeds [0, 1, 2, 3, 4, 5] "R001".toList (by decide)

/-! ## Debounce cache lemmas -/

/-- Updating the cache makes the key map to the new time. -/
theorem lookupSeen_updateSeen_self (m : SeenCache) (raw : Str) (now : Nat) :
    lookupSeen (updateSeen m raw now) raw = some now := by
  induction m with
  | nil => simp [updateSeen, lookupSeen]
  | cons p rest ih =>
    obtain ⟨k, v⟩ := p
    by_cases h : k = raw
    · simp [updateSeen, h, lookupSeen]
    · simp [updateSeen, h, lookupSeen, ih]

/-- Updating the cache leaves other keys untouched. -/
theorem lookupSeen_updateSeen_ne (m : SeenCache) {raw raw' : Str} (h : raw' ≠ raw)
    (now : Nat) : lookupSeen (updateSeen m raw now) raw' = lookupSeen m raw' := by
  induction m with
  | nil => simp [updateSeen, lookupSeen, Ne.symm h]
  | cons p rest ih =>
    obtain ⟨k, v⟩ := p
    by_cases hk : k = raw
    · subst hk
      simp [updateSeen, lookupSeen, Ne.symm h]
    · by_cases hk' : k = raw'
      · simp [updateSeen, hk, lookupSeen, hk', h]
      · simp [updateSeen, hk, lookupSeen, hk', ih]

/-- Inserting a key that is absent grows the dict by exactly one
entry. -/
theorem length_updateSeen_of_fresh {m : SeenCache} {raw : Str}
    (h : lookupSeen m raw = none) (now : Nat) :
    (updateSeen m raw now).length = m.length + 1 := by
  induction m with
  | nil => simp [updateSeen]
  | cons p rest ih =>
    obtain ⟨k, v⟩ := p
    simp only [lookupSeen] at h
    by_cases hk : k = raw
    · simp [hk] at h
    · simp only [hk, if_false] at h
      simp [updateSeen, hk, ih h]

/-! ## Engine structure lemmas -/

/-- Unfolding lemma: `handleScan` is the debounce guard followed by the decode / lookup /
record stages on the cache-updated state. -/
theorem handleScan_eq (crypto : TokenCrypto) (avail : Nat → Bool) (tsAt : Nat → Nat)
    (now : Nat) (st : EngineState) (raw : Str) :
    handleScan crypto avail tsAt now st raw =
      if debounceHit st.lastSeen raw now then (Except.ok none, st)
      else afterDebounce crypto avail tsAt
        { st with lastSeen := updateSeen st.lastSeen raw now } raw := by
  unfold handleScan debounceHit
  cases lookupSeen st.lastSeen raw with
  | none => simp
  | some t => by_cases h : now - t < 3 <;> simp [h]

/-- The post-debounce stages never touch the cache or the students
table, and they append exactly one attendance row when the outcome is
Verified and none otherwise. -/
theorem afterDebounce_frame (crypto : TokenCrypto) (avail : Nat → Bool) (tsAt : Nat → Nat)
    (st : EngineState) (raw : Str) :
    (afterDebounce crypto avail tsAt st raw).2.lastSeen = st.lastSeen ∧
    (afterDebounce crypto avail tsAt st raw).2.store.students = st.store.students ∧
    (((afterDebounce crypto avail tsAt st raw).2.store.attendance = st.store.attendance ∧
      ∀ name roll ts, (afterDebounce crypto avail tsAt st raw).1 ≠
        Except.ok (some (Outcome.verified name roll ts))) ∨
     (∃ name roll ts, (afterDebounce crypto avail tsAt st raw).1 =
        Except.ok (some (Outcome.verified name roll ts)) ∧
      (afterDebounce crypto avail tsAt st raw).2.store.attendance =
        st.store.attendance ++ [⟨roll, ts, webrtcLive, []⟩])) := by
  unfold afterDebounce lookupStep dupRecordStep
  split
  · exact ⟨rfl, rfl, Or.inl ⟨rfl, by simp⟩⟩
  · split
    · split
      · exact ⟨rfl, rfl, Or.inl ⟨rfl, by simp⟩⟩
      · split
        · exact ⟨rfl, rfl, Or.inr ⟨_, _, _, rfl, rfl⟩⟩
        · exact ⟨rfl, rfl, Or.inl ⟨rfl, by simp⟩⟩
    · split
      · split
        · exact ⟨rfl, rfl, Or.inl ⟨rfl, by simp⟩⟩
        · split
          · exact ⟨rfl, rfl, Or.inr ⟨_, _, _, rfl, rfl⟩⟩
          · exact ⟨rfl, rfl, Or.inl ⟨rfl, by simp⟩⟩
      · exact ⟨rfl, rfl, Or.inl ⟨rfl, by simp⟩⟩

/-- Frame of one `recv` handling: the students table is never written,
and the attendance log gains exactly one row exactly on Verified. -/
theorem handleScan_frame (crypto : TokenCrypto) (avail : Nat → Bool) (tsAt : Nat → Nat)
    (now : Nat) (st : EngineState) (raw : Str) :
    (handleScan crypto avail tsAt now st raw).2.store.students = st.store.students ∧
    (((handleScan crypto avail tsAt now st raw).2.store.attendance = st.store.attendance ∧
      ∀ name roll ts, (handleScan crypto avail tsAt now st raw).1 ≠
        Except.ok (some (Outcome.verified name roll ts))) ∨
     (∃ name roll ts, (handleScan crypto avail tsAt now st raw).1 =
        Except.ok (some (Outcome.verified name roll ts)) ∧
      (handleScan crypto avail tsAt now st raw).2.store.attendance =
        st.store.attendance ++ [⟨roll, ts, webrtcLive, []⟩])) := by
  rw [handleScan_eq]
  split
  · exact ⟨rfl, Or.inl ⟨rfl, by simp⟩⟩
  · exact (afterDebounce_frame crypto avail tsAt
      { st with lastSeen := updateSeen st.lastSeen raw now } raw).2

/-! ## Retry loop characterization -/

/-- The retry loop fails (re-raising the underlying error) exactly when
every one of its `failBudget + 1` attempts hits contention; it never
looks past them. -/
theorem addAttendanceLoop_error_iff (avail : Nat → Bool) (tsAt : Nat → Nat) :
    ∀ (b a : Nat), (addAttendanceLoop avail tsAt a b = Except.error SqlErr.operationalError ↔
      ∀ i, i ≤ b → avail (a + i) = false) := by
  intro b
  induction b with
  | zero =>
    intro a
    constructor
    · intro he i hi
      have hi0 : i = 0 := Nat.le_zero.mp hi
      subst hi0
      rw [Nat.add_zero]
      unfold addAttendanceLoop at he
      by_cases h : avail a
      · rw [if_pos h] at he
        cases he
      · exact eq_false_of_ne_true h
    · intro hr
      have h0 := hr 0 (Nat.le_refl 0)
      rw [Nat.add_zero] at h0
      unfold addAttendanceLoop
      rw [if_neg (by simp [h0])]
  | succ b ih =>
    intro a
    unfold addAttendanceLoop
    by_cases h : avail a
    · rw [if_pos h]
      constructor
      · intro he
        cases he
      · intro hr
        have h0 := hr 0 (Nat.zero_le _)
        rw [Nat.add_zero] at h0
        rw [h0] at h
        cases h
    · rw [if_neg h]
      rw [ih (a + 1)]
      constructor
      · intro hr i hi
        cases i with
        | zero =>
          rw [Nat.add_zero]
          exact eq_false_of_ne_true h
        | succ j =>
          have hj := hr j (by omega)
          rw [show a + (j + 1) = a + 1 + j by omega]
          exact hj
      · intro hr i hi
        have hj := hr (i + 1) (by omega)
        rw [show a + 1 + i = a + (i + 1) by omega]
        exact hj

/-! ## Claim C1: concurrent duplicate suppression -/

/-- C1 counterexample / failing execution: two concurrent verification
calls for the never-before-seen roll `R001`, under the interleaving
"A checks, B checks, A inserts, B inserts" of their separately-atomic
`attendance_exists` and `add_attendance` statements, both record
attendance and both finish Verified — the attendance table has no
uniqueness constraint and `recv` does not serialize the check-then-insert
pair, so it is not the case that exactly one call wins. -/
theorem concurrent_double_verify :
    runSchedule "R001".toList 42 43 ⟨[], ThreadPc.check, ThreadPc.check⟩
        [true, false, true, false] =
      ⟨[⟨"R001".toList, 42, webrtcLive, []⟩, ⟨"R001".toList, 43, webrtcLive, []⟩],
       ThreadPc.doneVerified 42, ThreadPc.doneVerified 43⟩ := by decide

/-! ## Claim C3: retry exhaustion -/

/-- C3 counterexample: a scan that reaches the record step while the
store is busy on every attempt makes `recv` end in the re-raised
`sqlite3.OperationalError` — an exception propagating out of the engine,
not an emitted typed store-unavailable outcome (no such outcome
exists). -/
theorem store_exhaustion_raises_counterexample :
    (handleScan plainCrypto (fun _ => false) (fun _ => 42) 0
      ⟨[], ⟨[⟨"R001".toList, "Al".toList, "e".toList, "tok".toList, 0⟩], []⟩⟩
      "R001|n0".toList).1 = Except.error SqlErr.operationalError := rfl

/-- C3 (amended): `add_attendance` retries contention a fixed small
number of times (9 attempts in verify_qr2.py; the loop never consults
the store beyond them) and, when all attempts hit contention, re-raises
the underlying `sqlite3.OperationalError`, which propagates out of
`recv` with no outcome emitted and the store unchanged (only the
debounce cache was updated). -/
theorem retry_exhaustion_reraises (crypto : TokenCrypto) (avail : Nat → Bool)
    (tsAt : Nat → Nat) (now : Nat) (st : EngineState) (raw roll nonce : Str) (s : Student)
    (hdeb : debounceHit st.lastSeen raw now = false)
    (hdec : decodeToken crypto raw = some (roll, nonce))
    (hfound : getStudentByRoll st.store.students roll = some s ∨
      (getStudentByRoll st.store.students roll = none ∧
       getStudentByTokenB64 st.store.students raw = some s))
    (hdup : attendanceExists st.store.attendance roll = false)
    (hbusy : ∀ i, i < 9 → avail i = false) :
    addAttendance avail tsAt = Except.error SqlErr.operationalError ∧
    handleScan crypto avail tsAt now st raw =
      (Except.error SqlErr.operationalError,
       { st with lastSeen := updateSeen st.lastSeen raw now }) := by
  have herr : addAttendance avail tsAt = Except.error SqlErr.operationalError := by
    unfold addAttendance
    rw [addAttendanceLoop_error_iff]
    intro i hi
    rw [Nat.zero_add]
    exact hbusy i (by omega)
  refine ⟨herr, ?_⟩
  rw [handleScan_eq, if_neg (by simp [hdeb])]
  unfold afterDebounce lookupStep dupRecordStep addAttendance
  unfold addAttendance at herr
  rcases hfound with hs | ⟨hn, hs⟩
  · simp [hdec, hs, hdup, herr]
  · simp [hdec, hn, hs, hdup, herr]

/-- C3 witness: the amended statement applied to an always-busy store
with a known student presenting a decodable token. -/
theorem retry_exhaustion_reraises_witness :
    addAttendance (fun _ => false) (fun _ => 42) = Except.error SqlErr.operationalError ∧
    handleScan plainCrypto (fun _ => false) (fun _ => 42) 0
      ⟨[], ⟨[⟨"R001".toList, "Al".toList, "e".toList, "tok".toList, 0⟩], []⟩⟩
      "R001|n0".toList =
      (Except.error SqlErr.operationalError,
       ⟨updateSeen [] "R001|n0".toList 0,
        ⟨[⟨"R001".toList, "Al".toList, "e".toList, "tok".toList, 0⟩], []⟩⟩) :=
  retry_exhaustion_reraises plainCrypto (fun _ => false) (fun _ => 42) 0
    ⟨[], ⟨[⟨"R001".toList, "Al".toList, "e".toList, "tok".toList, 0⟩], []⟩⟩
    "R001|n0".toList "R001".toList "n0".toList
    ⟨"R001".toList, "Al".toList, "e".toList, "tok".toList, 0⟩
    rfl rfl (Or.inl rfl) rfl (fun _ _ => rfl)

/-! ## Claim C4: debounce -/

/-- C4: a raw string whose cached last-seen time is within the 3-second
window is fully suppressed — no outcome, identical state, and the result
does not depend on the codec or on the store schedule (so decode, the
lookups and the store are never consulted); a string outside the window
has `raw -> now` recorded in the cache and processing continues with the
post-debounce stages. -/
theorem debounce_suppresses (st : EngineState) (raw : Str) (now : Nat) :
    ((∃ t, lookupSeen st.lastSeen raw = some t ∧ now - t < 3) →
      ∀ (crypto : TokenCrypto) (avail : Nat → Bool) (tsAt : Nat → Nat),
        handleScan crypto avail tsAt now st raw = (Except.ok none, st)) ∧
    ((∀ t, lookupSeen st.lastSeen raw = some t → ¬ now - t < 3) →
      ∀ (crypto : TokenCrypto) (avail : Nat → Bool) (tsAt : Nat → Nat),
        (handleScan crypto avail tsAt now st raw).2.lastSeen =
          updateSeen st.lastSeen raw now ∧
        lookupSeen (handleScan crypto avail tsAt now st raw).2.lastSeen raw = some now ∧
        handleScan crypto avail tsAt now st raw =
          afterDebounce crypto avail tsAt
            { st with lastSeen := updateSeen st.lastSeen raw now } raw) := by
  constructor
  · rintro ⟨t, hl, hw⟩ crypto avail tsAt
    have hhit : debounceHit st.lastSeen raw now = true := by
      unfold debounceHit
      rw [hl]
      simp [hw]
    rw [handleScan_eq, if_pos hhit]
  · intro h crypto avail tsAt
    have hmiss : debounceHit st.lastSeen raw now = false := by
      unfold debounceHit
      cases hl : lookupSeen st.lastSeen raw with
      | none => rfl
      | some t => simp [h t hl]
    have heq : handleScan crypto avail tsAt now st raw =
        afterDebounce crypto avail tsAt
          { st with lastSeen := updateSeen st.lastSeen raw now } raw := by
      rw [handleScan_eq, if_neg (by simp [hmiss])]
    have hcache : (handleScan crypto avail tsAt now st raw).2.lastSeen =
        updateSeen st.lastSeen raw now := by
      rw [heq]
      exact (afterDebounce_frame crypto avail tsAt _ raw).1
    refine ⟨hcache, ?_, heq⟩
    rw [hcache]
    exact lookupSeen_updateSeen_self _ _ _

/-- C4 witness: the same string seen again 1 second later is suppressed;
seen again 10 seconds later it is re-recorded at the new time. -/
theorem debounce_suppresses_witness :
    handleScan plainCrypto (fun _ => true) (fun _ => 0) 11
      ⟨[("x".toList, 10)], emptyStore⟩ "x".toList =
      (Except.ok none, ⟨[("x".toList, 10)], emptyStore⟩) ∧
    lookupSeen (handleScan plainCrypto (fun _ => true) (fun _ => 0) 20
      ⟨[("x".toList, 10)], emptyStore⟩ "x".toList).2.lastSeen "x".toList = some 20 :=
  ⟨(debounce_suppresses ⟨[("x".toList, 10)], emptyStore⟩ "x".toList 11).1
      ⟨10, rfl, by decide⟩ plainCrypto (fun _ => true) (fun _ => 0),
   ((debounce_suppresses ⟨[("x".toList, 10)], emptyStore⟩ "x".toList 20).2
      (by
        intro t ht
        have : t = 10 := by
          have h10 : lookupSeen [("x".toList, 10)] "x".toList = some 10 := rfl
          rw [h10] at ht
          cases ht
          rfl
        subst this
        decide)
      plainCrypto (fun _ => true) (fun _ => 0)).2.1⟩

/-! ## Claim C8: lookup order and the Unknown outcome -/

/-- The duplicate-check / record stage never produces the Unknown
outcome. -/
theorem dupRecordStep_fst_ne_unknown (avail : Nat → Bool) (tsAt : Nat → Nat)
    (st : EngineState) (roll : Str) (s : Student) :
    (dupRecordStep avail tsAt st roll s).1 ≠ Except.ok (some Outcome.unknown) := by
  unfold dupRecordStep
  split
  · simp
  · split <;> simp

/-- C8: for a successfully decoded, non-suppressed scan, the engine
emits Unknown (changing nothing but the debounce cache) exactly when
both the lookup by decoded roll and the fallback lookup by raw text
fail; when the roll lookup succeeds the engine proceeds with that
student (the fallback is irrelevant), and the fallback student is used
only when the roll lookup failed. -/
theorem lookup_order_and_unknown (crypto : TokenCrypto) (avail : Nat → Bool)
    (tsAt : Nat → Nat) (now : Nat) (st : EngineState) (raw roll nonce : Str)
    (hdeb : debounceHit st.lastSeen raw now = false)
    (hdec : decodeToken crypto raw = some (roll, nonce)) :
    ((getStudentByRoll st.store.students roll = none ∧
      getStudentByTokenB64 st.store.students raw = none) ↔
      handleScan crypto avail tsAt now st raw =
        (Except.ok (some Outcome.unknown),
         { st with lastSeen := updateSeen st.lastSeen raw now })) ∧
    (∀ s, getStudentByRoll st.store.students roll = some s →
      handleScan crypto avail tsAt now st raw =
        dupRecordStep avail tsAt
          { st with lastSeen := updateSeen st.lastSeen raw now } roll s) ∧
    (∀ s, getStudentByRoll st.store.students roll = none →
      getStudentByTokenB64 st.store.students raw = some s →
      handleScan crypto avail tsAt now st raw =
        dupRecordStep avail tsAt
          { st with lastSeen := updateSeen st.lastSeen raw now } roll s) := by
  have heq : handleScan crypto avail tsAt now st raw =
      afterDebounce crypto avail tsAt
        { st with lastSeen := updateSeen st.lastSeen raw now } raw := by
    rw [handleScan_eq, if_neg (by simp [hdeb])]
  have hbr : ∀ s, getStudentByRoll st.store.students roll = some s →
      afterDebounce crypto avail tsAt
        { st with lastSeen := updateSeen st.lastSeen raw now } raw =
      dupRecordStep avail tsAt
        { st with lastSeen := updateSeen st.lastSeen raw now } roll s := by
    intro s hs
    unfold afterDebounce lookupStep
    simp [hdec, hs]
  have hbt : ∀ s, getStudentByRoll st.store.students roll = none →
      getStudentByTokenB64 st.store.students raw = some s →
      afterDebounce crypto avail tsAt
        { st with lastSeen := updateSeen st.lastSeen raw now } raw =
      dupRecordStep avail tsAt
        { st with lastSeen := updateSeen st.lastSeen raw now } roll s := by
    intro s hn hs
    unfold afterDebounce lookupStep
    simp [hdec, hn, hs]
  have hun : getStudentByRoll st.store.students roll = none →
      getStudentByTokenB64 st.store.students raw = none →
      afterDebounce crypto avail tsAt
        { st with lastSeen := updateSeen st.lastSeen raw now } raw =
      (Except.ok (some Outcome.unknown),
       { st with lastSeen := updateSeen st.lastSeen raw now }) := by
    intro h1 h2
    unfold afterDebounce lookupStep
    simp [hdec, h1, h2]
  refine ⟨⟨fun h => by rw [heq, hun h.1 h.2], fun hE => ?_⟩,
    fun s hs => by rw [heq, hbr s hs],
    fun s hn hs => by rw [heq, hbt s hn hs]⟩
  cases hr : getStudentByRoll st.store.students roll with
  | some s =>
    rw [heq, hbr s hr] at hE
    exact absurd (congrArg Prod.fst hE) (dupRecordStep_fst_ne_unknown _ _ _ _ _)
  | none =>
    cases ht : getStudentByTokenB64 st.store.students raw with
    | some s =>
      rw [heq, hbt s hr ht] at hE
      exact absurd (congrArg Prod.fst hE) (dupRecordStep_fst_ne_unknown _ _ _ _ _)
    | none => exact ⟨rfl, rfl⟩

/-- C8 witness: a registered student's token decodes and is found by
roll, so handling proceeds to the duplicate-check / record stage. -/
theorem lookup_order_and_unknown_witness :
    handleScan plainCrypto (fun _ => true) (fun _ => 7) 0
      ⟨[], ⟨[⟨"R001".toList, "Al".toList, "e".toList, "tok".toList, 0⟩], []⟩⟩
      "R001|n0".toList =
      dupRecordStep (fun _ => true) (fun _ => 7)
        ⟨updateSeen [] "R001|n0".toList 0,
         ⟨[⟨"R001".toList, "Al".toList, "e".toList, "tok".toList, 0⟩], []⟩⟩
        "R001".toList ⟨"R001".toList, "Al".toList, "e".toList, "tok".toList, 0⟩ :=
  (lookup_order_and_unknown plainCrypto (fun _ => true) (fun _ => 7) 0
      ⟨[], ⟨[⟨"R001".toList, "Al".toList, "e".toList, "tok".toList, 0⟩], []⟩⟩
      "R001|n0".toList "R001".toList "n0".toList rfl rfl).2.1
    ⟨"R001".toList, "Al".toList, "e".toList, "tok".toList, 0⟩ rfl

/-! ## Claim C9: frame effect of one handling -/

/-- C9: one handling of a raw scan never writes the students table, and
appends exactly one attendance row exactly when the outcome is Verified
— on suppression, Invalid, Unknown, Duplicate (and on a propagated store
error) the attendance log is unchanged. -/
theorem recv_frame_effect (crypto : TokenCrypto) (avail : Nat → Bool) (tsAt : Nat → Nat)
    (now : Nat) (st : EngineState) (raw : Str) :
    (handleScan crypto avail tsAt now st raw).2.store.students = st.store.students ∧
    (((handleScan crypto avail tsAt now st raw).2.store.attendance = st.store.attendance ∧
      ∀ name roll ts, (handleScan crypto avail tsAt now st raw).1 ≠
        Except.ok (some (Outcome.verified name roll ts))) ∨
     (∃ name roll ts, (handleScan crypto avail tsAt now st raw).1 =
        Except.ok (some (Outcome.verified name roll ts)) ∧
      (handleScan crypto avail tsAt now st raw).2.store.attendance =
        st.store.attendance ++ [⟨roll, ts, webrtcLive, []⟩])) :=
  handleScan_frame crypto avail tsAt now st raw

/-! ## Claim C7: attendance presence is monotone -/

/-- C7: once a participant has an attendance record, every subsequent
system operation (init, credential upsert, scan handling) preserves it —
no operation removes or un-marks attendance. -/
theorem attendance_monotone (st : EngineState) (ops : List SysOp) (roll : Str)
    (h : attendanceExists st.store.attendance roll = true) :
    attendanceExists (applySysOps st ops).store.attendance roll = true := by
  induction ops generalizing st with
  | nil => exact h
  | cons op rest ih =>
    apply ih
    cases op with
    | initDb => exact h
    | saveStudent roll' name email tok t => exact h
    | scan crypto avail tsAt now raw =>
      show attendanceExists
        (handleScan crypto avail tsAt now st raw).2.store.attendance roll = true
      rcases (handleScan_frame crypto avail tsAt now st raw).2 with
        ⟨heq, _⟩ | ⟨n, r, t, _, heq⟩
      · rw [heq]; exact h
      · rw [heq]
        unfold attendanceExists at h ⊢
        rw [List.any_append, h]
        rfl

/-- C7 witness: a recorded `R001` stays recorded across an init and a
credential upsert for another participant. -/
theorem attendance_monotone_witness :
    attendanceExists (applySysOps
      ⟨[], ⟨[], [⟨"R001".toList, 5, "w".toList, []⟩]⟩⟩
      [SysOp.initDb,
       SysOp.saveStudent "R002".toList "Bo".toList "e".toList "t".toList 1]).store.attendance
      "R001".toList = true :=
  attendance_monotone ⟨[], ⟨[], [⟨"R001".toList, 5, "w".toList, []⟩]⟩⟩
    [SysOp.initDb,
     SysOp.saveStudent "R002".toList "Bo".toList "e".toList "t".toList 1]
    "R001".toList rfl

/-! ## Claim C6: at most one credential row per participant -/

/-- Row counts add across table concatenation. -/
theorem countRoll_append (l1 l2 : List Student) (roll : Str) :
    countRoll (l1 ++ l2) roll = countRoll l1 roll + countRoll l2 roll := by
  simp [countRoll, List.filter_append]

/-- After deleting the rows with a given roll, that roll has no rows. -/
theorem countRoll_filter_ne_eq_zero (db : List Student) (roll' : Str) :
    countRoll (db.filter (fun s => s.roll ≠ roll')) roll' = 0 := by
  have h0 : (db.filter (fun s => s.roll ≠ roll')).filter
      (fun s => s.roll = roll') = [] := by
    rw [List.filter_eq_nil_iff]
    intro s hs
    have hmem := List.of_mem_filter hs
    simp at hmem ⊢
    exact hmem
  unfold countRoll
  rw [h0]
  rfl

/-- Deleting rows never increases a roll's count. -/
theorem countRoll_filter_le (db : List Student) (p : Student → Bool) (roll : Str) :
    countRoll (db.filter p) roll ≤ countRoll db roll := by
  unfold countRoll
  exact List.Sublist.length_le (List.Sublist.filter _ (List.filter_sublist db))

/-- The upsert `INSERT OR REPLACE` preserves the at-most-one-row-per-roll bound. -/
theorem countRoll_save_le (db : List Student) (roll roll' name email tok : Str)
    (t : Nat) (h : countRoll db roll ≤ 1) :
    countRoll (saveStudentTokenDb db roll' name email tok t) roll ≤ 1 := by
  unfold saveStudentTokenDb
  rw [countRoll_append]
  by_cases hr : roll = roll'
  · subst hr
    rw [countRoll_filter_ne_eq_zero db roll]
    simp [countRoll]
  · have h1 : countRoll [(⟨roll', name, email, tok, t⟩ : Student)] roll = 0 := by
      simp [countRoll, Ne.symm hr]
    have h2 := countRoll_filter_le db (fun s => s.roll ≠ roll') roll
    omega

/-- C6: starting from a fresh database, after any sequence of system
operations (issuances included) every participant identifier has at most
one `students` row — re-issuing replaces, never appends. -/
theorem at_most_one_credential (ops : List SysOp) (roll : Str) :
    countRoll (applySysOps initialEngineState ops).store.students roll ≤ 1 := by
  suffices h : ∀ st : EngineState, (∀ r, countRoll st.store.students r ≤ 1) →
      ∀ r, countRoll (applySysOps st ops).store.students r ≤ 1 by
    exact h initialEngineState
      (fun r => by simp [initialEngineState, emptyStore, countRoll]) roll
  induction ops with
  | nil => intro st hst r; exact hst r
  | cons op rest ih =>
    intro st hst r
    apply ih
    intro r'
    cases op with
    | initDb => exact hst r'
    | saveStudent roll' name email tok t =>
      exact countRoll_save_le _ _ _ _ _ _ _ (hst r')
    | scan crypto avail tsAt now raw =>
      show countRoll (handleScan crypto avail tsAt now st raw).2.store.students r' ≤ 1
      rw [(handleScan_frame crypto avail tsAt now st raw).1]
      exact hst r'

/-! ## Claim C5: the debounce cache is not bounded -/

/-- A raw string absent from the cache always gets recorded. -/
theorem handleScan_lastSeen_of_fresh (crypto : TokenCrypto) (avail : Nat → Bool)
    (tsAt : Nat → Nat) (now : Nat) (st : EngineState) (raw : Str)
    (h : lookupSeen st.lastSeen raw = none) :
    (handleScan crypto avail tsAt now st raw).2.lastSeen =
      updateSeen st.lastSeen raw now := by
  have hmiss : debounceHit st.lastSeen raw now = false := by
    unfold debounceHit
    rw [h]
  rw [handleScan_eq, if_neg (by simp [hmiss])]
  exact (afterDebounce_frame crypto avail tsAt _ raw).1

/-- Handling distinct, previously unseen raw strings grows the cache by
one entry each: no eviction exists anywhere in `QRTransformer`. -/
theorem handleScans_lastSeen_length (crypto : TokenCrypto) (avail : Nat → Bool)
    (tsAt : Nat → Nat) :
    ∀ (inputs : List (Str × Nat)) (st : EngineState),
      (∀ p ∈ inputs, lookupSeen st.lastSeen p.1 = none) →
      List.Pairwise (fun p q : Str × Nat => p.1 ≠ q.1) inputs →
      (handleScans crypto avail tsAt st inputs).lastSeen.length =
        st.lastSeen.length + inputs.length
  | [], st, _, _ => rfl
  | (raw, now) :: rest, st, hfresh, hpair => by
    have hf : lookupSeen st.lastSeen raw = none :=
      hfresh _ (List.mem_cons_self _ _)
    have hcache := handleScan_lastSeen_of_fresh crypto avail tsAt now st raw hf
    have hrest : ∀ p ∈ rest,
        lookupSeen (handleScan crypto avail tsAt now st raw).2.lastSeen p.1 = none := by
      intro p hp
      have hne : p.1 ≠ raw :=
        Ne.symm (List.rel_of_pairwise_cons hpair hp)
      rw [hcache, lookupSeen_updateSeen_ne _ hne now]
      exact hfresh p (List.mem_cons_of_mem _ hp)
    show (handleScans crypto avail tsAt
      (handleScan crypto avail tsAt now st raw).2 rest).lastSeen.length = _
    rw [handleScans_lastSeen_length crypto avail tsAt rest _ hrest
      (List.Pairwise.of_cons hpair)]
    rw [hcache, length_updateSeen_of_fresh hf now]
    simp [List.length_cons]
    omega

/-- C5 counterexample: no fixed bound caps the size of `self.last_seen`
— for any claimed bound, a stream of that many plus one distinct
strings leaves more entries in the cache. -/
theorem cache_unbounded_counterexample :
    ¬ ∃ B : Nat, ∀ inputs : List (Str × Nat),
      (handleScans plainCrypto (fun _ => true) (fun _ => 0)
        initialEngineState inputs).lastSeen.length ≤ B := by
  rintro ⟨B, hB⟩
  have hfresh : ∀ p ∈ (List.range (B + 1)).map (fun i => (List.replicate i 'a', 0)),
      lookupSeen initialEngineState.lastSeen p.1 = none := fun p _ => rfl
  have hpair : List.Pairwise (fun p q : Str × Nat => p.1 ≠ q.1)
      ((List.range (B + 1)).map (fun i => (List.replicate i 'a', 0))) := by
    rw [List.pairwise_map]
    apply List.Pairwise.imp ?f (List.pairwise_lt_range (B + 1))
    intro i j hij heq
    have hlen := congrArg List.length heq
    simp at hlen
    omega
  have hlen := handleScans_lastSeen_length plainCrypto (fun _ => true) (fun _ => 0)
    ((List.range (B + 1)).map (fun i => (List.replicate i 'a', 0)))
    initialEngineState hfresh hpair
  have hle := hB ((List.range (B + 1)).map (fun i => (List.replicate i 'a', 0)))
  rw [hlen] at hle
  simp [initialEngineState] at hle

/-- C5 (amended): the recency cache is unbounded — it gains exactly one
entry per distinct newly-seen raw string and never evicts, so after n
distinct fresh strings it holds n more entries. -/
theorem cache_grows_per_distinct_scan (crypto : TokenCrypto) (avail : Nat → Bool)
    (tsAt : Nat → Nat) (inputs : List (Str × Nat)) (st : EngineState)
    (h1 : ∀ p ∈ inputs, lookupSeen st.lastSeen p.1 = none)
    (h2 : List.Pairwise (fun p q : Str × Nat => p.1 ≠ q.1) inputs) :
    (handleScans crypto avail tsAt st inputs).lastSeen.length =
      st.lastSeen.length + inputs.length :=
  handleScans_lastSeen_length crypto avail tsAt inputs st h1 h2

/-- C5 witness: two distinct strings from the initial state leave two
cache entries. -/
theorem cache_grows_per_distinct_scan_witness :
    (handleScans plainCrypto (fun _ => true) (fun _ => 0) initialEngineState
      [("a".toList, 0), ("b".toList, 5)]).lastSeen.length = 2 :=
  cache_grows_per_distinct_scan plainCrypto (fun _ => true) (fun _ => 0)
    [("a".toList, 0), ("b".toList, 5)] initialEngineState
    (fun p _ => rfl) (by decide)
